import Mathlib

/-!
Verification of the scaffolding orchestration pipeline implemented in
packages/cli/lib/Creator.js.

The development is a shallow embedding of the Creator class.  Pure computations
become Lean functions; the effectful creation workflow becomes a function from
its inputs (environment detection flags, saved configuration, CLI options, the
collaborating oracles for prompting, remote fetching, module loading, process
spawning and generation) to a pair of an event trace and an `Except` result.
Console-only output (plain log lines, the spinner text) is not modelled except
where a claim depends on it: the progress-spinner start/stop and the error log
around the remote preset fetch, and the warning printed after a failed git
commit, appear as trace events.

JavaScript objects with string keys are modelled as ordered association lists,
matching key-insertion order; a falsy slot is an `Option` that is `none`.
-/

set_option linter.unusedVariables false

namespace Workflow

/-! ## JavaScript object model: ordered association lists with string keys -/

/-- Property read `m[k]`: the first entry with the given key. -/
def objGet {α : Type} : List (String × α) → String → Option α
  | [], _ => none
  | (k, v) :: rest, key => if k = key then some v else objGet rest key

/-- Property write `m[k] = v`: update in place if the key exists (keeping its
position, as JavaScript does), otherwise append. -/
def objSet {α : Type} : List (String × α) → String → α → List (String × α)
  | [], key, v => [(key, v)]
  | (k, w) :: rest, key, v =>
    if k = key then (k, v) :: rest else (k, w) :: objSet rest key v

/-- One step of `Object.assign(target, src)`: copy the own enumerable
properties of `src` onto `target`, in key order, later keys winning. -/
def objAssign {α : Type} (target : List (String × α)) (src : List (String × α)) :
    List (String × α) :=
  src.foldl (fun acc kv => objSet acc kv.1 kv.2) target

/-- The `name.includes(sep)` membership test of a single character. -/
def strHasChar (s : String) (c : Char) : Bool := s.data.contains c

/-! ## Plugin resolver (Creator.resolvePlugins)

Source: `resolvePlugins (rawPlugins)` iterates `Object.keys(rawPlugins)`, loads
each generator entry point with `loadModule` and falls back to a no-op arrow
function, then optionally replaces the raw options with interview answers.
`loadModule` lives in the shared-utils package, outside these sources; per the
spec it resolves a module best-effort and a loading failure yields a falsy
value rather than an exception, which we model as an `Option`-valued oracle. -/

/-- A generator function value: either a function loaded from a module, or the
no-op fallback `() => {}` (an arrow function allocated in `resolvePlugins`). -/
inductive GenFn where
  | loaded (modId : String)
  | noop
deriving DecidableEq, Repr

/-- Raw per-plugin options from the preset: the `prompts` flag, the internal
`_isPreset` display marker, and the remaining settings payload. -/
structure RawOpts where
  prompts : Bool := false
  isPreset : Bool := false
  settings : List (String × String) := []
deriving DecidableEq, Repr

/-- The options attached to a resolved plugin: the raw settings object, or the
answers object produced by the scoped interview. -/
inductive OptionsVal where
  | raw (o : RawOpts)
  | answers (a : String)
deriving DecidableEq, Repr

/-- A resolved plugin descriptor `{ id, apply, options }`. -/
structure ResolvedPlugin where
  id : String
  apply : GenFn
  options : OptionsVal
deriving DecidableEq, Repr

/-- The module-loading and prompting collaborators used by `resolvePlugins`:
`loadGenerator id` models `loadModule(id + "/generator", context)` (none on
loading failure), `loadPrompts id` models whether `loadModule(id + "/prompts",
context)` finds a prompt schema, and `promptAnswers id` is the answers object
returned by `inquirer.prompt` for that schema. -/
structure PluginEnv where
  loadGenerator : String → Option GenFn
  loadPrompts : String → Bool
  promptAnswers : String → String

/-- Creator.resolvePlugins: one resolved entry is pushed per key of the raw
plugins object, in key order.  The apply function is the loaded module or the
no-op fallback; if the raw options carry the `prompts` flag and a prompt
schema module is found, the options are replaced by the interview answers. -/
def resolvePlugins (env : PluginEnv) : List (String × Option RawOpts) → List ResolvedPlugin
  | [] => []
  | (id, rawOpts) :: rest =>
    let apply := (env.loadGenerator id).getD GenFn.noop
    let options0 := rawOpts.getD {}
    let options :=
      if options0.prompts then
        if env.loadPrompts id then OptionsVal.answers (env.promptAnswers id)
        else OptionsVal.raw options0
      else OptionsVal.raw options0
    { id := id, apply := apply, options := options } :: resolvePlugins env rest

/-! ## Data model of the creation workflow -/

/-- A preset: its `plugins` property.  `none` models a missing (or non-object)
`plugins` slot, on which `Object.keys` throws a TypeError.  The other preset
fields (useConfigFiles, router, ...) play no role in the claims. -/
structure Preset where
  plugins : Option (List (String × Option RawOpts))
deriving DecidableEq, Repr

/-- The steps of the workflow that spawn a child process. -/
inductive ProcStep where
  | gitInit
  | gitAdd
  | gitCommit
  | install
deriving DecidableEq, Repr

/-- Errors that can escape the creation workflow. -/
inductive CreateErr where
  | typeErr
  | invalidPreset
  | fetchErr (msg : String)
  | procErr (step : ProcStep) (msg : String)
  | hookErr (label : String) (msg : String)
deriving DecidableEq, Repr

/-- Observable events of one run, in order of occurrence. -/
inductive Ev where
  | spinnerStart
  | spinnerStop
  | errorLog
  | validate
  | writePkgJson
  | emitCreation (tag : String)
  | procRun (step : ProcStep)
  | hookRun (label : String)
  | writeReadme (packageManager : String)
  | warnCommit
deriving DecidableEq, Repr

/-- A post-generation hook callback: its label and whether awaiting it throws. -/
structure Hook where
  label : String
  throws : Option String
deriving DecidableEq, Repr

/-- What the external Generator collaborator contributes: the two hook lists it
populates as a side channel while consuming the resolved plugins. -/
structure GenOut where
  afterInvokeCbs : List Hook
  afterAnyInvokeCbs : List Hook

/-- Read-only environment signals consulted by the workflow. -/
structure Env where
  isTestOrDebug : Bool
  hasGit : Bool
  hasYarn : Bool
  hasPnpm3OrLater : Bool

/-- The persisted configuration returned by `loadOptions()`. -/
structure SavedOptions where
  packageManager : Option String
  presets : List (String × Preset)

/-- Options passed by the caller of `create`.  Only `packageManager` is ever
read by the source; `git` stands for a caller request to disable git
initialization, which the source receives (it passes `cliOptions` to
`shouldInitGit`) but ignores. -/
structure CliOptions where
  packageManager : Option String
  git : Option Bool

/-- The external collaborators of one `create` run: the remote preset loader,
the preset answer of the interview, the outcome of each spawned process
(`none` = exit success, `some msg` = failure), the module loader and prompt
oracles, and the Generator. -/
structure Collab where
  remote : String → Bool → Except String Preset
  answersPreset : String
  proc : ProcStep → Option String
  pluginEnv : PluginEnv
  generator : List ResolvedPlugin → GenOut

/-- The terminal report of a successful run. -/
structure CreateOk where
  packageManager : String
  gitCommitFailed : Bool
deriving DecidableEq, Repr

/-! ## Pure helpers of the workflow -/

/-- The package-manager choice of `create` (Creator.js lines 64-69):
`cliOptions.packageManager || loadOptions().packageManager ||
(hasYarn() ? "yarn" : null) || (hasPnpm3OrLater() ? "pnpm" : "npm")`.
A falsy slot is modelled as `none`. -/
def choosePackageManager (cliPM savedPM : Option String)
    (yarnDetected pnpmDetected : Bool) : String :=
  match cliPM with
  | some pm => pm
  | none =>
    match savedPM with
    | some pm => pm
    | none => if yarnDetected then "yarn" else if pnpmDetected then "pnpm" else "npm"

/-- Creator.shouldInitGit: returns false when no git binary is detected and
true otherwise.  The declaration takes no parameter in the source even though
`create` passes `cliOptions` at the call site, so the caller options are
ignored; the parameter is kept here to record that fact. -/
def shouldInitGit (env : Env) (cliOptions : CliOptions) : Bool :=
  if !env.hasGit then false else true

/-- Modelled from the spec: `validatePreset` is imported from lib/options.js,
which is not among the sources.  Per the spec it validates the acquired preset
against the preset schema and fails with InvalidPreset on a missing or
malformed `plugins` map, aborting the run; on success the acquired preset is
returned unchanged.  The argument is an `Option` because `resolvePreset` can
return `undefined`. -/
def validatePreset : Option Preset → Except CreateErr Preset
  | some p =>
    match p.plugins with
    | some _ => Except.ok p
    | none => Except.error CreateErr.invalidPreset
  | none => Except.error CreateErr.invalidPreset

/-! ## Preset Store (Creator.resolvePreset) -/

/-- Creator.resolvePreset: look the name up among the saved presets; otherwise,
if the name contains a slash, treat it as a remote reference and fetch it with
the spinner running, stopping the spinner before rethrowing a fetch failure;
otherwise fall through.  The historical message for an unresolved name is
commented out in the source, so the fall-through silently returns `undefined`
(`Except.ok none` here). -/
def resolvePresetM (savedPresets : List (String × Preset))
    (remote : String → Bool → Except String Preset) (name : String) (clone : Bool) :
    List Ev × Except CreateErr (Option Preset) :=
  match objGet savedPresets name with
  | some p => ([], Except.ok (some p))
  | none =>
    if strHasChar name '/' then
      match remote name clone with
      | Except.ok p => ([Ev.spinnerStart, Ev.spinnerStop], Except.ok (some p))
      | Except.error e =>
          ([Ev.spinnerStart, Ev.spinnerStop, Ev.errorLog],
            Except.error (CreateErr.fetchErr e))
    else ([], Except.ok none)

/-- Creator.promptAndResolvePreset: run the interview (its preset answer is the
`answersPreset` oracle), resolve that name with the clone flag left undefined
(falsy), then validate the result. -/
def promptAndResolvePreset (saved : SavedOptions) (c : Collab) :
    List Ev × Except CreateErr Preset :=
  match resolvePresetM saved.presets c.remote c.answersPreset false with
  | (trR, Except.error e) => (trR, Except.error e)
  | (trR, Except.ok p) =>
    match validatePreset p with
    | Except.error e => (trR ++ [Ev.validate], Except.error e)
    | Except.ok preset => (trR ++ [Ev.validate], Except.ok preset)

/-! ## The creation workflow (Creator.create) -/

/-- Sequencing of two traced fallible steps: an exception in the first step
skips the second, keeping the trace accumulated so far. -/
def seqE {α β : Type} (x : List Ev × Except CreateErr α)
    (f : α → List Ev × Except CreateErr β) : List Ev × Except CreateErr β :=
  match x.2 with
  | Except.error e => (x.1, Except.error e)
  | Except.ok a => (x.1 ++ (f a).1, (f a).2)

/-- Lines 90-95: when git is to be initialized, emit the `git-init` creation
event and spawn `git init`; a spawn failure is not caught. -/
def gitInitStep (c : Collab) (sig : Bool) : List Ev × Except CreateErr Unit :=
  if sig then
    match c.proc ProcStep.gitInit with
    | none =>
        ([Ev.emitCreation "git-init", Ev.procRun ProcStep.gitInit], Except.ok ())
    | some m =>
        ([Ev.emitCreation "git-init", Ev.procRun ProcStep.gitInit],
          Except.error (CreateErr.procErr ProcStep.gitInit m))
  else ([], Except.ok ())

/-- Lines 115-117: spawn the package-manager install unless the test/debug
environment signal is set; a spawn failure is not caught. -/
def installStep (c : Collab) (isTestOrDebug : Bool) : List Ev × Except CreateErr Unit :=
  if isTestOrDebug then ([], Except.ok ())
  else
    match c.proc ProcStep.install with
    | none => ([Ev.procRun ProcStep.install], Except.ok ())
    | some m =>
        ([Ev.procRun ProcStep.install],
          Except.error (CreateErr.procErr ProcStep.install m))

/-- One of the hook loops of lines 120-126: each callback is awaited to
completion before the next starts, and a throw propagates immediately. -/
def runHooks : List Hook → List Ev × Except CreateErr Unit
  | [] => ([], Except.ok ())
  | cb :: rest =>
    match cb.throws with
    | some m => ([Ev.hookRun cb.label], Except.error (CreateErr.hookErr cb.label m))
    | none =>
      let tail := runHooks rest
      (Ev.hookRun cb.label :: tail.1, tail.2)

/-- Lines 136-144: when git was initialized, spawn `git add -A` (failure not
caught), then `git commit -m init` inside a try/catch whose handler only sets
the `gitCommitFailed` flag, which is returned. -/
def commitStep (c : Collab) (sig : Bool) : List Ev × Except CreateErr Bool :=
  if sig then
    match c.proc ProcStep.gitAdd with
    | some m =>
        ([Ev.procRun ProcStep.gitAdd],
          Except.error (CreateErr.procErr ProcStep.gitAdd m))
    | none =>
      match c.proc ProcStep.gitCommit with
      | some _ =>
          ([Ev.procRun ProcStep.gitAdd, Ev.procRun ProcStep.gitCommit], Except.ok true)
      | none =>
          ([Ev.procRun ProcStep.gitAdd, Ev.procRun ProcStep.gitCommit], Except.ok false)
  else ([], Except.ok false)

/-- Lines 62-158 of Creator.create, from the point where the preset is in hand:
compute the package manager, read `Object.keys(preset.plugins)` (a TypeError on
a missing plugins map, before the first filesystem write), write package.json,
optionally init git, emit `plugins-install`, resolve the plugins and hand them
to the Generator, install dependencies, run the two hook lists, write
README.md, then stage and commit with the commit failure downgraded to the
final warning.  The `cloneDeep` of line 62 is the identity on the structural
value of the preset (its aliasing content is treated in the heap model below). -/
def createCore (env : Env) (saved : SavedOptions) (cli : CliOptions) (c : Collab)
    (preset : Preset) : List Ev × Except CreateErr CreateOk :=
  let pm := choosePackageManager cli.packageManager saved.packageManager
    env.hasYarn env.hasPnpm3OrLater
  match preset.plugins with
  | none => ([], Except.error CreateErr.typeErr)
  | some rawPlugins =>
    let sig := shouldInitGit env cli
    seqE ([Ev.writePkgJson], Except.ok ()) (fun _ =>
    seqE (gitInitStep c sig) (fun _ =>
    seqE ([Ev.emitCreation "plugins-install"], Except.ok ()) (fun _ =>
    let plugins := resolvePlugins c.pluginEnv rawPlugins
    let gen := c.generator plugins
    seqE (installStep c env.isTestOrDebug) (fun _ =>
    seqE (runHooks gen.afterInvokeCbs) (fun _ =>
    seqE (runHooks gen.afterAnyInvokeCbs) (fun _ =>
    seqE ([Ev.writeReadme pm], Except.ok ()) (fun _ =>
    seqE (commitStep c sig) (fun gitCommitFailed =>
    ((if gitCommitFailed then [Ev.warnCommit] else []),
      Except.ok { packageManager := pm, gitCommitFailed := gitCommitFailed })))))))))

/-- Creator.create: acquire the preset (the supplied one, or the interview plus
store resolution plus validation), then run the workflow core. -/
def create (env : Env) (saved : SavedOptions) (cli : CliOptions)
    (presetArg : Option Preset) (c : Collab) : List Ev × Except CreateErr CreateOk :=
  match presetArg with
  | some p => createCore env saved cli c p
  | none => seqE (promptAndResolvePreset saved c) (fun p => createCore env saved cli c p)

/-- Whether an event mutates the target directory. -/
def isWrite : Ev → Bool
  | Ev.writePkgJson => true
  | Ev.writeReadme _ => true
  | _ => false

/-- Every filesystem write in the trace is preceded by a validation event. -/
def validatedBeforeWrite (tr : List Ev) : Prop :=
  ∀ pre e post, tr = pre ++ e :: post → isWrite e = true → Ev.validate ∈ pre

/-- All hooks in the list complete without throwing. -/
def hooksOk (l : List Hook) : Bool := l.all (fun cb => cb.throws.isNone)

/-! ## Creator.getPresets -/

/-- Creator.getPresets: `Object.assign({}, loadOptions().presets,
defaults.presets)`.  The built-in `defaults.presets` object lives in
lib/options.js, outside these sources, so it is a parameter. -/
def getPresets (savedPresets dfltPresets : List (String × Preset)) :
    List (String × Preset) :=
  objAssign (objAssign [] savedPresets) dfltPresets

/-! ## Heap model for the defensive deep copy (line 62) and store sharing

Claim C9 is about JavaScript reference semantics: `resolvePreset` returns the
saved preset object itself (a shared reference) and `create` works on
`cloneDeep(preset)` so that later in-place mutation by plugins cannot reach the
saved original.  Values are therefore modelled with an explicit heap: nodes are
stored at numeric addresses, an object node holds addresses of its fields, and
allocation appends at the end of the heap.  `cloneDeep` is modelled from the
spec (lodash.clonedeep is an external dependency): a recursive structural copy
that allocates fresh nodes for every reached part of the value. -/

/-- A heap node: a primitive leaf, or an object whose fields hold addresses. -/
inductive HNode where
  | prim (s : String)
  | obj (fields : List (String × Nat))
deriving DecidableEq, Repr

/-- The heap: the node at address `a` is the list entry at index `a`. -/
abbrev Heap := List HNode

/-- A pure structural value, the result of reading a value out of the heap. -/
inductive PVal where
  | prim (s : String)
  | obj (fields : List (String × PVal))
deriving Repr

/-- Dereference an address. -/
def heapGet : Heap → Nat → Option HNode
  | [], _ => none
  | n :: _, 0 => some n
  | _ :: rest, a + 1 => heapGet rest a

/-- Overwrite the node at an address (an in-place JavaScript mutation such as
a plugin assigning to a field of its options object). -/
def heapSet : Heap → Nat → HNode → Heap
  | [], _, _ => []
  | _ :: rest, 0, nd => nd :: rest
  | x :: rest, a + 1, nd => x :: heapSet rest a nd

/-- The addresses held by a node. -/
def nodeAddrs : HNode → List Nat
  | HNode.prim _ => []
  | HNode.obj fs => fs.map (fun kv => kv.2)

/-- Every address held by any node of the heap points into the heap. -/
def closedHeap (H : Heap) : Bool :=
  H.all (fun nd => (nodeAddrs nd).all (fun b => decide (b < H.length)))

/-- Read the fields of an object through a given address reader. -/
def readFields (rd : Nat → Option PVal) : List (String × Nat) → Option (List (String × PVal))
  | [] => some []
  | (k, a) :: rest =>
    match rd a with
    | some v =>
      match readFields rd rest with
      | some ps => some ((k, v) :: ps)
      | none => none
    | none => none

/-- Read the structural value rooted at an address, with a recursion-depth
fuel; `none` on a dangling address or exhausted fuel. -/
def readout : Nat → Heap → Nat → Option PVal
  | 0, _, _ => none
  | f + 1, H, a =>
    match heapGet H a with
    | some (HNode.prim s) => some (PVal.prim s)
    | some (HNode.obj fs) =>
      match readFields (fun b => readout f H b) fs with
      | some ps => some (PVal.obj ps)
      | none => none
    | none => none

/-- Clone each field of an object in turn with a given cloner, threading the
heap. -/
def cloneFields (cl : Heap → Nat → Option (Heap × Nat)) :
    Heap → List (String × Nat) → Option (Heap × List (String × Nat))
  | H, [] => some (H, [])
  | H, (k, a) :: rest =>
    match cl H a with
    | some (H2, a2) =>
      match cloneFields cl H2 rest with
      | some (H3, ps) => some (H3, (k, a2) :: ps)
      | none => none
    | none => none

/-- Modelled from the spec: lodash.clonedeep, the defensive deep copy of
Creator.create line 62.  The value rooted at the address is copied
recursively, every copied node being freshly allocated at the end of the heap;
the root of the copy is returned with the extended heap. -/
def cloneDeep : Nat → Heap → Nat → Option (Heap × Nat)
  | 0, _, _ => none
  | f + 1, H, a =>
    match heapGet H a with
    | some (HNode.prim s) => some (H ++ [HNode.prim s], H.length)
    | some (HNode.obj fs) =>
      match cloneFields (fun H2 b => cloneDeep f H2 b) H fs with
      | some (H2, ps) => some (H2 ++ [HNode.obj ps], H2.length)
      | none => none
    | none => none

/-- The heap-level view of the saved-preset lookup of Creator.resolvePreset
line 185-186: the stored object itself is returned, a shared reference. -/
def resolvePresetH (savedPresets : List (String × Nat)) (name : String) : Option Nat :=
  objGet savedPresets name

/-- Every node stored at or above `base` holds only addresses at or above
`base`: the freshly allocated clone region is self-contained, so a traversal
starting inside it never reaches an older address. -/
def freshFrom (base : Nat) (H : Heap) : Prop :=
  ∀ i nd, base ≤ i → heapGet H i = some nd → ∀ b ∈ nodeAddrs nd, base ≤ b

/-! ## Association-list lemmas -/

theorem objGet_objSet_self {α : Type} (m : List (String × α)) (k : String) (v : α) :
    objGet (objSet m k v) k = some v := by
  induction m with
  | nil => simp [objSet, objGet]
  | cons kv rest ih =>
    obtain ⟨k1, w⟩ := kv
    by_cases h : k1 = k
    · simp [objSet, objGet, h]
    · simp [objSet, objGet, h, ih]

theorem objGet_objSet_ne {α : Type} (m : List (String × α)) {k1 k : String} (v : α)
    (h : k1 ≠ k) : objGet (objSet m k1 v) k = objGet m k := by
  induction m with
  | nil => simp [objSet, objGet, h]
  | cons kv rest ih =>
    obtain ⟨k2, w⟩ := kv
    by_cases h2 : k2 = k1
    · subst h2
      simp [objSet, objGet, h]
    · simp [objSet, h2]
      by_cases h3 : k2 = k
      · simp [objGet, h3]
      · simp [objGet, h3, ih]

theorem objAssign_cons {α : Type} (t : List (String × α)) (k : String) (v : α)
    (src : List (String × α)) :
    objAssign t ((k, v) :: src) = objAssign (objSet t k v) src := rfl

theorem objGet_objAssign_not_mem {α : Type} (src : List (String × α)) {k : String}
    (h : k ∉ src.map Prod.fst) :
    ∀ t, objGet (objAssign t src) k = objGet t k := by
  induction src with
  | nil => intro t; rfl
  | cons kv rest ih =>
    intro t
    obtain ⟨k1, v⟩ := kv
    simp only [List.map_cons, List.mem_cons] at h
    push_neg at h
    rw [objAssign_cons, ih h.2, objGet_objSet_ne t v (fun he => h.1 he.symm)]

theorem objGet_objAssign_mem {α : Type} (src : List (String × α)) {k : String} {v : α}
    (hnd : (src.map Prod.fst).Nodup) (hget : objGet src k = some v) :
    ∀ t, objGet (objAssign t src) k = some v := by
  induction src with
  | nil => simp [objGet] at hget
  | cons kv rest ih =>
    intro t
    obtain ⟨k1, w⟩ := kv
    simp only [List.map_cons, List.nodup_cons] at hnd
    by_cases h : k1 = k
    · subst h
      have hv : w = v := by simpa [objGet] using hget
      subst hv
      rw [objAssign_cons, objGet_objAssign_not_mem rest hnd.1, objGet_objSet_self]
    · simp only [objGet, if_neg h] at hget
      rw [objAssign_cons]
      exact ih hnd.2 hget (objSet t k1 w)

/-! ## C10: getPresets merges saved and built-in presets, built-ins winning -/

/-- C10: for every preset name present both among the saved presets and among
the built-in default presets, the mapping returned by `getPresets` carries the
built-in default preset for that name (later `Object.assign` sources win). -/
theorem claim10_getPresets_defaults_override
    (saved dflt : List (String × Preset)) (k : String) (v w : Preset)
    (hnd : (dflt.map Prod.fst).Nodup)
    (hsaved : objGet saved k = some w) (hdflt : objGet dflt k = some v) :
    objGet (getPresets saved dflt) k = some v :=
  objGet_objAssign_mem dflt hnd hdflt (objAssign [] saved)

/-- C10 witness: with a saved preset and a built-in default preset sharing the
name web, getPresets returns the built-in one. -/
theorem claim10_witness :
    objGet (getPresets [("web", { plugins := some [] })]
      [("web", { plugins := some [("@pkb/plugin-a", none)] })]) "web" =
      some { plugins := some [("@pkb/plugin-a", none)] } :=
  claim10_getPresets_defaults_override _ _ "web"
    { plugins := some [("@pkb/plugin-a", none)] } { plugins := some [] }
    (by simp) (by simp [objGet]) (by simp [objGet])

/-! ## C1, C2: the plugin resolver -/

/-- C1: for every raw-plugins mapping, resolvePlugins returns exactly one
resolved entry per input key, in the original key-insertion order, and every
entry carries the plugin id, the loaded generator function or the no-op
fallback, and an options value. -/
theorem claim1_resolvePlugins_shape (env : PluginEnv) (raw : List (String × Option RawOpts)) :
    ((resolvePlugins env raw).map ResolvedPlugin.id = raw.map Prod.fst)
    ∧ ((resolvePlugins env raw).length = raw.length)
    ∧ ((resolvePlugins env raw).Forall
        (fun rp => rp.apply = (env.loadGenerator rp.id).getD GenFn.noop)) := by
  induction raw with
  | nil => simp [resolvePlugins]
  | cons kv rest ih =>
    obtain ⟨id, rawOpts⟩ := kv
    refine ⟨?_, ?_, ?_⟩
    · simp [resolvePlugins, ih.1]
    · simp [resolvePlugins, ih.2.1]
    · simp only [resolvePlugins, List.forall_cons]
      exact ⟨by simp, ih.2.2⟩

/-- C2: a plugin id whose generator module fails to load (the loader returns a
falsy value) still gets a resolved entry, whose apply function is the no-op
fallback; resolvePlugins is a total function, so no error escapes. -/
theorem claim2_resolvePlugins_noop (env : PluginEnv) (raw : List (String × Option RawOpts))
    (id : String) (opts : Option RawOpts)
    (hmem : (id, opts) ∈ raw) (hfail : env.loadGenerator id = none) :
    ∃ rp, rp ∈ resolvePlugins env raw ∧ rp.id = id ∧ rp.apply = GenFn.noop := by
  induction raw with
  | nil => simp at hmem
  | cons kv rest ih =>
    obtain ⟨id1, opts1⟩ := kv
    rcases List.mem_cons.mp hmem with hhead | htail
    · injection hhead with h1 h2
      subst h1
      refine ⟨{ id := id,
                apply := (env.loadGenerator id).getD GenFn.noop,
                options :=
                  if (opts1.getD {}).prompts then
                    if env.loadPrompts id then OptionsVal.answers (env.promptAnswers id)
                    else OptionsVal.raw (opts1.getD {})
                  else OptionsVal.raw (opts1.getD {}) }, ?_, rfl, by simp [hfail]⟩
      simp [resolvePlugins, List.mem_cons]
    · obtain ⟨rp, hrp, hid, happ⟩ := ih htail
      exact ⟨rp, List.mem_cons_of_mem _ hrp, hid, happ⟩

/-- C2 witness: a loader that finds no generator module for the single plugin
of the mapping yields an entry for it with a no-op apply. -/
theorem claim2_witness :
    ∃ rp, rp ∈ resolvePlugins ⟨fun _ => none, fun _ => false, fun _ => "ans"⟩
        [("@pkb/plugin-a", none)]
      ∧ rp.id = "@pkb/plugin-a" ∧ rp.apply = GenFn.noop :=
  claim2_resolvePlugins_noop ⟨fun _ => none, fun _ => false, fun _ => "ans"⟩
    [("@pkb/plugin-a", none)] "@pkb/plugin-a" none (by simp) rfl

/-! ## Sequencing lemmas -/

theorem seqE_snd_ok {α β : Type} {x : List Ev × Except CreateErr α}
    {f : α → List Ev × Except CreateErr β} {a : α} (h : x.2 = Except.ok a) :
    (seqE x f).2 = (f a).2 := by
  simp [seqE, h]

theorem seqE_error_of_ok_step {α β : Type} {x : List Ev × Except CreateErr α}
    {f : α → List Ev × Except CreateErr β} {a : α} {e : CreateErr}
    (h : x.2 = Except.ok a) (h2 : (f a).2 = Except.error e) :
    (seqE x f).2 = Except.error e := by
  rw [seqE_snd_ok h, h2]

theorem seqE_error_of_error {α β : Type} {x : List Ev × Except CreateErr α}
    {f : α → List Ev × Except CreateErr β} {e : CreateErr}
    (h : x.2 = Except.error e) : (seqE x f).2 = Except.error e := by
  simp [seqE, h]

theorem seqE_error_iff {α β : Type} (x : List Ev × Except CreateErr α)
    (f : α → List Ev × Except CreateErr β) (e : CreateErr) :
    (seqE x f).2 = Except.error e ↔
      x.2 = Except.error e ∨ ∃ a, x.2 = Except.ok a ∧ (f a).2 = Except.error e := by
  rcases x with ⟨tr, r⟩
  cases r <;> simp [seqE]

theorem seqE_ok_iff {α β : Type} (x : List Ev × Except CreateErr α)
    (f : α → List Ev × Except CreateErr β) (b : β) :
    (seqE x f).2 = Except.ok b ↔
      ∃ a, x.2 = Except.ok a ∧ (f a).2 = Except.ok b := by
  rcases x with ⟨tr, r⟩
  cases r <;> simp [seqE]

theorem mem_seqE {α β : Type} {x : List Ev × Except CreateErr α}
    {f : α → List Ev × Except CreateErr β} {e : Ev} (h : e ∈ (seqE x f).1) :
    e ∈ x.1 ∨ ∃ a, x.2 = Except.ok a ∧ e ∈ (f a).1 := by
  rcases x with ⟨tr, r⟩
  cases r with
  | error er => simp [seqE] at h; exact Or.inl h
  | ok a =>
    simp only [seqE, List.mem_append] at h
    rcases h with h | h
    · exact Or.inl h
    · exact Or.inr ⟨a, rfl, h⟩

/-! ## Step lemmas -/

theorem gitInitStep_snd_ok {c : Collab} (sig : Bool)
    (h : c.proc ProcStep.gitInit = none) : (gitInitStep c sig).2 = Except.ok () := by
  cases sig <;> simp [gitInitStep, h]

theorem installStep_snd_ok {c : Collab} (t : Bool)
    (h : c.proc ProcStep.install = none) : (installStep c t).2 = Except.ok () := by
  cases t <;> simp [installStep, h]

theorem runHooks_ok (l : List Hook) (h : hooksOk l = true) :
    runHooks l = (l.map (fun cb => Ev.hookRun cb.label), Except.ok ()) := by
  induction l with
  | nil => rfl
  | cons cb rest ih =>
    simp only [hooksOk, List.all_cons, Bool.and_eq_true] at h
    have hcb : cb.throws = none := Option.isNone_iff_eq_none.mp h.1
    have ihr := ih (by simp [hooksOk, h.2])
    simp [runHooks, hcb, ihr]

theorem runHooks_fail (pre : List Hook) (bad : Hook) (rest : List Hook) (m : String)
    (hpre : hooksOk pre = true) (hbad : bad.throws = some m) :
    runHooks (pre ++ bad :: rest) =
      (pre.map (fun cb => Ev.hookRun cb.label) ++ [Ev.hookRun bad.label],
        Except.error (CreateErr.hookErr bad.label m)) := by
  induction pre with
  | nil => simp [runHooks, hbad]
  | cons cb rest2 ih =>
    simp only [hooksOk, List.all_cons, Bool.and_eq_true] at hpre
    have hcb : cb.throws = none := Option.isNone_iff_eq_none.mp hpre.1
    have ihr := ih (by simp [hooksOk, hpre.2])
    simp [runHooks, hcb, ihr]

theorem runHooks_events {l : List Hook} {e : Ev} (h : e ∈ (runHooks l).1) :
    ∃ lb, e = Ev.hookRun lb := by
  induction l with
  | nil => simp [runHooks] at h
  | cons cb rest ih =>
    cases hcb : cb.throws with
    | some m =>
      simp [runHooks, hcb] at h
      exact ⟨cb.label, h⟩
    | none =>
      simp only [runHooks, hcb, List.mem_cons] at h
      rcases h with h | h
      · exact ⟨cb.label, h⟩
      · exact ih h

/-! ## C5: package-manager choice precedence -/

/-- C5: the package manager chosen by create follows the precedence explicit
CLI option, then saved configuration, then yarn if detected, then the
version-gated pnpm if detected, then npm; the choice is the pure function
`choosePackageManager` of those four inputs (it appears in the result of every
successful run, independent of every effect outcome). -/
theorem claim5_packageManager_precedence :
    (∀ s savedPM y p, choosePackageManager (some s) savedPM y p = s)
    ∧ (∀ s y p, choosePackageManager none (some s) y p = s)
    ∧ (∀ p, choosePackageManager none none true p = "yarn")
    ∧ (choosePackageManager none none false true = "pnpm")
    ∧ (choosePackageManager none none false false = "npm")
    ∧ (∀ env saved cli presetArg c tr out,
        create env saved cli presetArg c = (tr, Except.ok out) →
        out.packageManager = choosePackageManager cli.packageManager
          saved.packageManager env.hasYarn env.hasPnpm3OrLater) := by
  refine ⟨fun s savedPM y p => rfl, fun s y p => rfl, fun p => rfl, rfl, rfl, ?_⟩
  have hcore : ∀ env saved cli c p out,
      (createCore env saved cli c p).2 = Except.ok out →
      out.packageManager = choosePackageManager cli.packageManager
        saved.packageManager env.hasYarn env.hasPnpm3OrLater := by
    intro env saved cli c p out h
    cases hpl : p.plugins with
    | none => simp [createCore, hpl] at h
    | some rp =>
      simp only [createCore, hpl, seqE_ok_iff] at h
      obtain ⟨_, _, _, _, _, _, _, _, _, _, _, _, _, _, gcf, _, hfin⟩ := h
      simp only [Prod.snd, Except.ok.injEq] at hfin
      rw [← hfin]
  intro env saved cli presetArg c tr out h
  have h2 : (create env saved cli presetArg c).2 = Except.ok out := by rw [h]
  cases presetArg with
  | some p => exact hcore env saved cli c p out h2
  | none =>
    simp only [create, seqE_ok_iff] at h2
    obtain ⟨p, _, hp⟩ := h2
    exact hcore env saved cli c p out hp

/-- C5 witness: a concrete successful run (test mode, nothing detected) ends
with the npm fallback, the value of the pure choice function. -/
theorem claim5_witness :
    (CreateOk.mk "npm" false).packageManager =
      choosePackageManager none none false false :=
  claim5_packageManager_precedence.2.2.2.2.2 ⟨true, false, false, false⟩ ⟨none, []⟩
    ⟨none, none⟩ (some { plugins := some [] })
    ⟨fun _ _ => Except.error "x", "web", fun _ => none,
      ⟨fun _ => none, fun _ => false, fun _ => "a"⟩, fun _ => ⟨[], []⟩⟩
    [Ev.writePkgJson, Ev.emitCreation "plugins-install", Ev.writeReadme "npm"]
    (CreateOk.mk "npm" false) rfl

/-! ## C7: preset store fall-through and remote-fetch rethrow -/

/-- C7: a name that is neither a saved-preset key nor contains a slash resolves
to `undefined` with no error signalled and no message emitted; for a slashed
name whose remote fetch fails, the error is rethrown with the spinner stopped
before the error log and the throw. -/
theorem claim7_resolvePreset_fallthrough_and_rethrow :
    (∀ savedPresets remote name clone,
      objGet savedPresets name = none → strHasChar name '/' = false →
      resolvePresetM savedPresets remote name clone = ([], Except.ok none))
    ∧ (∀ savedPresets remote name clone e,
        objGet savedPresets name = none → strHasChar name '/' = true →
        remote name clone = Except.error e →
        resolvePresetM savedPresets remote name clone =
          ([Ev.spinnerStart, Ev.spinnerStop, Ev.errorLog],
            Except.error (CreateErr.fetchErr e))) := by
  constructor
  · intro savedPresets remote name clone hsaved hslash
    simp [resolvePresetM, hsaved, hslash]
  · intro savedPresets remote name clone e hsaved hslash hremote
    simp [resolvePresetM, hsaved, hslash, hremote]

/-- C7 witness: the unsaved, slash-free name foo falls through silently, and
the unsaved slashed name a/b with a failing fetch rethrows after the spinner
stop. -/
theorem claim7_witness :
    resolvePresetM [] (fun _ _ => Except.error "net down") "foo" false =
      ([], Except.ok none)
    ∧ resolvePresetM [] (fun _ _ => Except.error "net down") "a/b" false =
      ([Ev.spinnerStart, Ev.spinnerStop, Ev.errorLog],
        Except.error (CreateErr.fetchErr "net down")) :=
  ⟨claim7_resolvePreset_fallthrough_and_rethrow.1 [] (fun _ _ => Except.error "net down")
      "foo" false rfl (by decide),
    claim7_resolvePreset_fallthrough_and_rethrow.2 [] (fun _ _ => Except.error "net down")
      "a/b" false "net down" rfl (by decide) rfl⟩

/-! ## C3: hook execution order and failure propagation -/

/-- C3: the afterInvoke hooks run first in insertion order, then the
afterAnyInvoke hooks in insertion order, each awaited to completion before the
next starts; a hook that throws at position k stops every later hook and its
error propagates out of create uncaught. -/
theorem claim3_hook_order_and_propagation :
    (∀ l1 l2, hooksOk l1 = true → hooksOk l2 = true →
      seqE (runHooks l1) (fun _ => runHooks l2) =
        ((l1 ++ l2).map (fun cb => Ev.hookRun cb.label), Except.ok ()))
    ∧ (∀ pre bad rest m, hooksOk pre = true → bad.throws = some m →
        runHooks (pre ++ bad :: rest) =
          (pre.map (fun cb => Ev.hookRun cb.label) ++ [Ev.hookRun bad.label],
            Except.error (CreateErr.hookErr bad.label m)))
    ∧ (∀ env saved cli c p rp e, p.plugins = some rp →
        c.proc ProcStep.gitInit = none → c.proc ProcStep.install = none →
        (seqE (runHooks (c.generator (resolvePlugins c.pluginEnv rp)).afterInvokeCbs)
          (fun _ => runHooks (c.generator (resolvePlugins c.pluginEnv rp)).afterAnyInvokeCbs)).2 =
          Except.error e →
        (create env saved cli (some p) c).2 = Except.error e) := by
  refine ⟨?_, ?_, ?_⟩
  · intro l1 l2 h1 h2
    rw [runHooks_ok l1 h1, seqE, runHooks_ok l2 h2]
    simp
  · intro pre bad rest m hpre hbad
    exact runHooks_fail pre bad rest m hpre hbad
  · intro env saved cli c p rp e hpl hgi hin hseq
    simp only [create, createCore, hpl]
    refine seqE_error_of_ok_step rfl ?_
    refine seqE_error_of_ok_step (gitInitStep_snd_ok _ hgi) ?_
    refine seqE_error_of_ok_step rfl ?_
    refine seqE_error_of_ok_step (installStep_snd_ok _ hin) ?_
    rcases (seqE_error_iff _ _ _).mp hseq with hA | ⟨a, hAok, hB⟩
    · exact seqE_error_of_error hA
    · exact seqE_error_of_ok_step hAok (seqE_error_of_error hB)

/-- C3 witness: two succeeding hook lists run in order; a failing second hook
cuts off the third; and a run whose generator contributed a throwing hook ends
in that hook error. -/
theorem claim3_witness :
    (seqE (runHooks [⟨"h1", none⟩]) (fun _ => runHooks [⟨"h2", none⟩]) =
      ([Ev.hookRun "h1", Ev.hookRun "h2"], Except.ok ()))
    ∧ (runHooks [⟨"h1", none⟩, ⟨"h2", some "boom"⟩, ⟨"h3", none⟩] =
        ([Ev.hookRun "h1", Ev.hookRun "h2"],
          Except.error (CreateErr.hookErr "h2" "boom")))
    ∧ ((create ⟨false, false, false, false⟩ ⟨none, []⟩ ⟨none, none⟩
          (some { plugins := some [] })
          ⟨fun _ _ => Except.error "x", "web", fun _ => none,
            ⟨fun _ => none, fun _ => false, fun _ => "a"⟩,
            fun _ => ⟨[⟨"h1", some "boom"⟩], []⟩⟩).2 =
        Except.error (CreateErr.hookErr "h1" "boom")) := by
  refine ⟨?_, ?_, ?_⟩
  · exact claim3_hook_order_and_propagation.1 [⟨"h1", none⟩] [⟨"h2", none⟩]
      (by decide) (by decide)
  · exact claim3_hook_order_and_propagation.2.1 [⟨"h1", none⟩] ⟨"h2", some "boom"⟩
      [⟨"h3", none⟩] "boom" (by decide) rfl
  · exact claim3_hook_order_and_propagation.2.2 _ _ _ _ _ [] _ rfl rfl rfl rfl

/-! ## Trace lemmas -/

theorem seqE_fst_error {α β : Type} {x : List Ev × Except CreateErr α}
    {f : α → List Ev × Except CreateErr β} {e : CreateErr}
    (h : x.2 = Except.error e) : (seqE x f).1 = x.1 := by
  simp [seqE, h]

theorem seqE_fst_ok {α β : Type} {x : List Ev × Except CreateErr α}
    {f : α → List Ev × Except CreateErr β} {a : α}
    (h : x.2 = Except.ok a) : (seqE x f).1 = x.1 ++ (f a).1 := by
  simp [seqE, h]

theorem mem_seqE_left {α β : Type} {x : List Ev × Except CreateErr α}
    {f : α → List Ev × Except CreateErr β} {e : Ev} (h : e ∈ x.1) :
    e ∈ (seqE x f).1 := by
  rcases x with ⟨tr, r⟩
  cases r <;> simp [seqE] at h ⊢ <;> tauto

theorem mem_seqE_right {α β : Type} {x : List Ev × Except CreateErr α}
    {f : α → List Ev × Except CreateErr β} {e : Ev} {a : α}
    (hx : x.2 = Except.ok a) (h : e ∈ (f a).1) : e ∈ (seqE x f).1 := by
  rw [seqE_fst_ok hx]
  exact List.mem_append_right _ h

theorem resolvePresetM_events {savedPresets : List (String × Preset)}
    {remote : String → Bool → Except String Preset} {name : String} {clone : Bool} {e : Ev}
    (he : e ∈ (resolvePresetM savedPresets remote name clone).1) :
    e = Ev.spinnerStart ∨ e = Ev.spinnerStop ∨ e = Ev.errorLog := by
  cases hg : objGet savedPresets name with
  | some p => simp [resolvePresetM, hg] at he
  | none =>
    cases hs : strHasChar name '/' with
    | false => simp [resolvePresetM, hg, hs] at he
    | true =>
      cases hr : remote name clone with
      | ok p => simp [resolvePresetM, hg, hs, hr] at he; tauto
      | error er => simp [resolvePresetM, hg, hs, hr] at he; tauto

theorem promptAndResolvePreset_eq_error {saved : SavedOptions} {c : Collab}
    {trR : List Ev} {e : CreateErr}
    (hstep : resolvePresetM saved.presets c.remote c.answersPreset false =
      (trR, Except.error e)) :
    promptAndResolvePreset saved c = (trR, Except.error e) := by
  simp [promptAndResolvePreset, hstep]

theorem promptAndResolvePreset_eq_invalid {saved : SavedOptions} {c : Collab}
    {trR : List Ev} {p : Option Preset} {er : CreateErr}
    (hstep : resolvePresetM saved.presets c.remote c.answersPreset false =
      (trR, Except.ok p))
    (hv : validatePreset p = Except.error er) :
    promptAndResolvePreset saved c = (trR ++ [Ev.validate], Except.error er) := by
  simp [promptAndResolvePreset, hstep, hv]

theorem promptAndResolvePreset_eq_valid {saved : SavedOptions} {c : Collab}
    {trR : List Ev} {p : Option Preset} {q : Preset}
    (hstep : resolvePresetM saved.presets c.remote c.answersPreset false =
      (trR, Except.ok p))
    (hv : validatePreset p = Except.ok q) :
    promptAndResolvePreset saved c = (trR ++ [Ev.validate], Except.ok q) := by
  simp [promptAndResolvePreset, hstep, hv]

theorem promptAndResolvePreset_no_writes {saved : SavedOptions} {c : Collab} {e : Ev}
    (he : e ∈ (promptAndResolvePreset saved c).1) : isWrite e = false := by
  rcases hstep : resolvePresetM saved.presets c.remote c.answersPreset false with ⟨trR, r⟩
  have hres : ∀ x ∈ trR, isWrite x = false := by
    intro x hx
    have := resolvePresetM_events (hstep ▸ hx : x ∈ (resolvePresetM saved.presets
      c.remote c.answersPreset false).1)
    rcases this with rfl | rfl | rfl <;> rfl
  cases r with
  | error er =>
    rw [promptAndResolvePreset_eq_error hstep] at he
    exact hres e he
  | ok p =>
    cases hv : validatePreset p with
    | error er =>
      rw [promptAndResolvePreset_eq_invalid hstep hv] at he
      rcases List.mem_append.mp he with h | h
      · exact hres e h
      · simp at h; subst h; rfl
    | ok q =>
      rw [promptAndResolvePreset_eq_valid hstep hv] at he
      rcases List.mem_append.mp he with h | h
      · exact hres e h
      · simp at h; subst h; rfl

theorem promptAndResolvePreset_validate {saved : SavedOptions} {c : Collab} {p : Preset}
    (h : (promptAndResolvePreset saved c).2 = Except.ok p) :
    Ev.validate ∈ (promptAndResolvePreset saved c).1 := by
  rcases hstep : resolvePresetM saved.presets c.remote c.answersPreset false with ⟨trR, r⟩
  cases r with
  | error er => rw [promptAndResolvePreset_eq_error hstep] at h; simp at h
  | ok q =>
    cases hv : validatePreset q with
    | error er => rw [promptAndResolvePreset_eq_invalid hstep hv] at h; simp at h
    | ok q2 => rw [promptAndResolvePreset_eq_valid hstep hv]; simp

theorem gitInitStep_events {c : Collab} {sig : Bool} {e : Ev}
    (he : e ∈ (gitInitStep c sig).1) :
    sig = true ∧ (e = Ev.emitCreation "git-init" ∨ e = Ev.procRun ProcStep.gitInit) := by
  cases sig <;> cases hpr : c.proc ProcStep.gitInit <;>
    simp [gitInitStep, hpr] at he <;> tauto

theorem installStep_events {c : Collab} {t : Bool} {e : Ev}
    (he : e ∈ (installStep c t).1) : e = Ev.procRun ProcStep.install := by
  cases t <;> cases hpr : c.proc ProcStep.install <;>
    simp [installStep, hpr] at he <;> tauto

theorem commitStep_events {c : Collab} {sig : Bool} {e : Ev}
    (he : e ∈ (commitStep c sig).1) :
    sig = true ∧ (e = Ev.procRun ProcStep.gitAdd ∨ e = Ev.procRun ProcStep.gitCommit) := by
  cases sig <;> cases hpr : c.proc ProcStep.gitAdd <;>
    cases hpr2 : c.proc ProcStep.gitCommit <;>
    simp [commitStep, hpr, hpr2] at he <;> tauto

/-- Every event of the workflow core is one of the listed shapes; the git
events can only occur when `shouldInitGit` returned true. -/
theorem createCore_events {env : Env} {saved : SavedOptions} {cli : CliOptions}
    {c : Collab} {p : Preset} {e : Ev} (he : e ∈ (createCore env saved cli c p).1) :
    e = Ev.writePkgJson ∨ e = Ev.emitCreation "plugins-install"
    ∨ e = Ev.procRun ProcStep.install ∨ (∃ lb, e = Ev.hookRun lb)
    ∨ (∃ pm, e = Ev.writeReadme pm) ∨ e = Ev.warnCommit
    ∨ (shouldInitGit env cli = true
        ∧ (e = Ev.emitCreation "git-init" ∨ e = Ev.procRun ProcStep.gitInit
          ∨ e = Ev.procRun ProcStep.gitAdd ∨ e = Ev.procRun ProcStep.gitCommit)) := by
  cases hpl : p.plugins with
  | none => simp [createCore, hpl] at he
  | some rp =>
    simp only [createCore, hpl] at he
    rcases mem_seqE he with h | ⟨_, _, h⟩
    · simp at h; tauto
    rcases mem_seqE h with h | ⟨_, _, h⟩
    · obtain ⟨hsig, hor⟩ := gitInitStep_events h
      exact Or.inr (Or.inr (Or.inr (Or.inr (Or.inr (Or.inr ⟨hsig, by tauto⟩)))))
    rcases mem_seqE h with h | ⟨_, _, h⟩
    · simp at h; tauto
    rcases mem_seqE h with h | ⟨_, _, h⟩
    · exact Or.inr (Or.inr (Or.inl (installStep_events h)))
    rcases mem_seqE h with h | ⟨_, _, h⟩
    · exact Or.inr (Or.inr (Or.inr (Or.inl (runHooks_events h))))
    rcases mem_seqE h with h | ⟨_, _, h⟩
    · exact Or.inr (Or.inr (Or.inr (Or.inl (runHooks_events h))))
    rcases mem_seqE h with h | ⟨_, _, h⟩
    · simp at h
      exact Or.inr (Or.inr (Or.inr (Or.inr (Or.inl ⟨_, h⟩))))
    rcases mem_seqE h with h | ⟨gcf, _, h⟩
    · obtain ⟨hsig, hor⟩ := commitStep_events h
      exact Or.inr (Or.inr (Or.inr (Or.inr (Or.inr (Or.inr ⟨hsig, by tauto⟩)))))
    · cases gcf <;> simp at h
      tauto

theorem promptAndResolvePreset_events {saved : SavedOptions} {c : Collab} {e : Ev}
    (he : e ∈ (promptAndResolvePreset saved c).1) :
    e = Ev.spinnerStart ∨ e = Ev.spinnerStop ∨ e = Ev.errorLog ∨ e = Ev.validate := by
  rcases hstep : resolvePresetM saved.presets c.remote c.answersPreset false with ⟨trR, r⟩
  have hres : ∀ x ∈ trR,
      x = Ev.spinnerStart ∨ x = Ev.spinnerStop ∨ x = Ev.errorLog := by
    intro x hx
    exact resolvePresetM_events (hstep ▸ hx : x ∈ (resolvePresetM saved.presets
      c.remote c.answersPreset false).1)
  cases r with
  | error er =>
    rw [promptAndResolvePreset_eq_error hstep] at he
    have := hres e he
    tauto
  | ok p =>
    cases hv : validatePreset p with
    | error er =>
      rw [promptAndResolvePreset_eq_invalid hstep hv] at he
      rcases List.mem_append.mp he with h | h
      · have := hres e h; tauto
      · simp at h; tauto
    | ok q =>
      rw [promptAndResolvePreset_eq_valid hstep hv] at he
      rcases List.mem_append.mp he with h | h
      · have := hres e h; tauto
      · simp at h; tauto

theorem create_events {env : Env} {saved : SavedOptions} {cli : CliOptions}
    {presetArg : Option Preset} {c : Collab} {e : Ev}
    (he : e ∈ (create env saved cli presetArg c).1) :
    (e = Ev.spinnerStart ∨ e = Ev.spinnerStop ∨ e = Ev.errorLog ∨ e = Ev.validate)
    ∨ ∃ p, e ∈ (createCore env saved cli c p).1 := by
  cases presetArg with
  | some p =>
    simp only [create] at he
    exact Or.inr ⟨p, he⟩
  | none =>
    simp only [create] at he
    rcases mem_seqE he with h | ⟨p, _, h⟩
    · exact Or.inl (promptAndResolvePreset_events h)
    · exact Or.inr ⟨p, h⟩

/-! ## C4: only the git commit process failure is tolerated -/

/-- C4: when git was initialized and the `git commit` spawn throws, the error
is caught, the run still ends in the success report (with the commit-failed
flag set) and the warning is emitted; and this is the only tolerated process
failure: a git init, dependency install, or git add failure each aborts the
run with its process error. -/
theorem claim4_commit_failure_tolerated :
    (∀ env saved cli c p rp m,
      p.plugins = some rp → env.hasGit = true →
      c.proc ProcStep.gitInit = none → c.proc ProcStep.install = none →
      hooksOk (c.generator (resolvePlugins c.pluginEnv rp)).afterInvokeCbs = true →
      hooksOk (c.generator (resolvePlugins c.pluginEnv rp)).afterAnyInvokeCbs = true →
      c.proc ProcStep.gitAdd = none → c.proc ProcStep.gitCommit = some m →
      (create env saved cli (some p) c).2 =
        Except.ok (CreateOk.mk (choosePackageManager cli.packageManager
          saved.packageManager env.hasYarn env.hasPnpm3OrLater) true)
      ∧ Ev.warnCommit ∈ (create env saved cli (some p) c).1)
    ∧ (∀ env saved cli c p rp m, p.plugins = some rp → env.hasGit = true →
        c.proc ProcStep.gitInit = some m →
        (create env saved cli (some p) c).2 =
          Except.error (CreateErr.procErr ProcStep.gitInit m))
    ∧ (∀ env saved cli c p rp m, p.plugins = some rp →
        c.proc ProcStep.gitInit = none → env.isTestOrDebug = false →
        c.proc ProcStep.install = some m →
        (create env saved cli (some p) c).2 =
          Except.error (CreateErr.procErr ProcStep.install m))
    ∧ (∀ env saved cli c p rp m, p.plugins = some rp → env.hasGit = true →
        c.proc ProcStep.gitInit = none → c.proc ProcStep.install = none →
        hooksOk (c.generator (resolvePlugins c.pluginEnv rp)).afterInvokeCbs = true →
        hooksOk (c.generator (resolvePlugins c.pluginEnv rp)).afterAnyInvokeCbs = true →
        c.proc ProcStep.gitAdd = some m →
        (create env saved cli (some p) c).2 =
          Except.error (CreateErr.procErr ProcStep.gitAdd m)) := by
  refine ⟨?_, ?_, ?_, ?_⟩
  · intro env saved cli c p rp m hpl hG hgi hin hA hB hadd hcom
    have hsig : shouldInitGit env cli = true := by simp [shouldInitGit, hG]
    constructor
    · cases ht : env.isTestOrDebug <;>
        simp [create, createCore, hpl, hsig, seqE, gitInitStep, hgi, installStep, ht,
          hin, runHooks_ok _ hA, runHooks_ok _ hB, commitStep, hadd, hcom]
    · cases ht : env.isTestOrDebug <;>
        simp [create, createCore, hpl, hsig, seqE, gitInitStep, hgi, installStep, ht,
          hin, runHooks_ok _ hA, runHooks_ok _ hB, commitStep, hadd, hcom]
  · intro env saved cli c p rp m hpl hG hgim
    have hsig : shouldInitGit env cli = true := by simp [shouldInitGit, hG]
    have h1 : (gitInitStep c (shouldInitGit env cli)).2 =
        Except.error (CreateErr.procErr ProcStep.gitInit m) := by
      simp [gitInitStep, hsig, hgim]
    simp only [create, createCore, hpl]
    exact seqE_error_of_ok_step rfl (seqE_error_of_error h1)
  · intro env saved cli c p rp m hpl hgi htd hinm
    have h1 : (installStep c env.isTestOrDebug).2 =
        Except.error (CreateErr.procErr ProcStep.install m) := by
      simp [installStep, htd, hinm]
    simp only [create, createCore, hpl]
    exact seqE_error_of_ok_step rfl (seqE_error_of_ok_step (gitInitStep_snd_ok _ hgi)
      (seqE_error_of_ok_step rfl (seqE_error_of_error h1)))
  · intro env saved cli c p rp m hpl hG hgi hin hA hB haddm
    have hsig : shouldInitGit env cli = true := by simp [shouldInitGit, hG]
    have hrA : (runHooks (c.generator (resolvePlugins c.pluginEnv rp)).afterInvokeCbs).2 =
        Except.ok () := by rw [runHooks_ok _ hA]
    have hrB : (runHooks (c.generator (resolvePlugins c.pluginEnv rp)).afterAnyInvokeCbs).2 =
        Except.ok () := by rw [runHooks_ok _ hB]
    have hc : (commitStep c (shouldInitGit env cli)).2 =
        Except.error (CreateErr.procErr ProcStep.gitAdd m) := by
      simp [commitStep, hsig, haddm]
    simp only [create, createCore, hpl]
    exact seqE_error_of_ok_step rfl (seqE_error_of_ok_step (gitInitStep_snd_ok _ hgi)
      (seqE_error_of_ok_step rfl (seqE_error_of_ok_step (installStep_snd_ok _ hin)
        (seqE_error_of_ok_step hrA (seqE_error_of_ok_step hrB
          (seqE_error_of_ok_step rfl (seqE_error_of_error hc)))))))

/-- C4 witness: a concrete run with a failing commit succeeds with the warning,
while runs with a failing git init, install, or git add abort. -/
theorem claim4_witness :
    ((create ⟨false, true, false, false⟩ ⟨none, []⟩ ⟨none, none⟩
        (some { plugins := some [] })
        ⟨fun _ _ => Except.error "x", "web",
          fun s => if s = ProcStep.gitCommit then some "no identity" else none,
          ⟨fun _ => none, fun _ => false, fun _ => "a"⟩, fun _ => ⟨[], []⟩⟩).2 =
      Except.ok { packageManager := "npm", gitCommitFailed := true }
    ∧ Ev.warnCommit ∈ (create ⟨false, true, false, false⟩ ⟨none, []⟩ ⟨none, none⟩
        (some { plugins := some [] })
        ⟨fun _ _ => Except.error "x", "web",
          fun s => if s = ProcStep.gitCommit then some "no identity" else none,
          ⟨fun _ => none, fun _ => false, fun _ => "a"⟩, fun _ => ⟨[], []⟩⟩).1)
    ∧ ((create ⟨false, true, false, false⟩ ⟨none, []⟩ ⟨none, none⟩
        (some { plugins := some [] })
        ⟨fun _ _ => Except.error "x", "web",
          fun s => if s = ProcStep.gitInit then some "spawn失败" else none,
          ⟨fun _ => none, fun _ => false, fun _ => "a"⟩, fun _ => ⟨[], []⟩⟩).2 =
      Except.error (CreateErr.procErr ProcStep.gitInit "spawn失败"))
    ∧ ((create ⟨false, false, false, false⟩ ⟨none, []⟩ ⟨none, none⟩
        (some { plugins := some [] })
        ⟨fun _ _ => Except.error "x", "web",
          fun s => if s = ProcStep.install then some "network" else none,
          ⟨fun _ => none, fun _ => false, fun _ => "a"⟩, fun _ => ⟨[], []⟩⟩).2 =
      Except.error (CreateErr.procErr ProcStep.install "network"))
    ∧ ((create ⟨false, true, false, false⟩ ⟨none, []⟩ ⟨none, none⟩
        (some { plugins := some [] })
        ⟨fun _ _ => Except.error "x", "web",
          fun s => if s = ProcStep.gitAdd then some "bad tree" else none,
          ⟨fun _ => none, fun _ => false, fun _ => "a"⟩, fun _ => ⟨[], []⟩⟩).2 =
      Except.error (CreateErr.procErr ProcStep.gitAdd "bad tree")) :=
  ⟨claim4_commit_failure_tolerated.1 _ _ _ _ _ [] "no identity" rfl rfl
      (by decide) (by decide) rfl rfl (by decide) (by decide),
    claim4_commit_failure_tolerated.2.1 _ _ _ _ _ [] "spawn失败" rfl rfl (by decide),
    claim4_commit_failure_tolerated.2.2.1 _ _ _ _ _ [] "network" rfl (by decide) rfl
      (by decide),
    claim4_commit_failure_tolerated.2.2.2 _ _ _ _ _ [] "bad tree" rfl rfl
      (by decide) (by decide) rfl rfl (by decide)⟩

/-! ## C6: preset validation versus filesystem mutation (corrected)

The claim says every acquired preset, supplied or interactive, is validated
before any filesystem mutation.  In the source `validatePreset` is only called
inside `promptAndResolvePreset`, which `create` skips entirely when a preset
argument is supplied; the counterexample below is a successful run from a
supplied preset whose trace contains writes but no validation event.  What
does hold: interactive presets are validated before any write, an interactive
invalid preset aborts with the validation failure before any write, and a
supplied preset without a plugins map still aborts (with the TypeError from
`Object.keys`) before the first write. -/

/-- C6 counterexample: a run from a caller-supplied preset mutates the target
directory (package.json is written, the run even succeeds) yet no validation
ever happens, refuting that every acquired preset is validated before any
filesystem mutation. -/
theorem claim6_counterexample :
    Ev.writePkgJson ∈ (create ⟨true, false, false, false⟩ ⟨none, []⟩ ⟨none, none⟩
      (some { plugins := some [] })
      ⟨fun _ _ => Except.error "x", "web", fun _ => none,
        ⟨fun _ => none, fun _ => false, fun _ => "a"⟩, fun _ => ⟨[], []⟩⟩).1
    ∧ Ev.validate ∉ (create ⟨true, false, false, false⟩ ⟨none, []⟩ ⟨none, none⟩
      (some { plugins := some [] })
      ⟨fun _ _ => Except.error "x", "web", fun _ => none,
        ⟨fun _ => none, fun _ => false, fun _ => "a"⟩, fun _ => ⟨[], []⟩⟩).1
    ∧ (create ⟨true, false, false, false⟩ ⟨none, []⟩ ⟨none, none⟩
      (some { plugins := some [] })
      ⟨fun _ _ => Except.error "x", "web", fun _ => none,
        ⟨fun _ => none, fun _ => false, fun _ => "a"⟩, fun _ => ⟨[], []⟩⟩).2 =
      Except.ok (CreateOk.mk "npm" false) :=
  ⟨by decide, by decide, rfl⟩

/-- C6 amended: an interactively resolved preset is validated before any
filesystem mutation, and an interactive invalid preset aborts with the
validation failure with nothing written; a caller-supplied preset is never
validated, though a supplied preset lacking a plugins map still aborts (with
a TypeError) before the first write. -/
theorem claim6_validation_amended :
    (∀ env saved cli c, validatedBeforeWrite (create env saved cli none c).1)
    ∧ (∀ env saved cli c trR p er,
        resolvePresetM saved.presets c.remote c.answersPreset false =
          (trR, Except.ok p) →
        validatePreset p = Except.error er →
        create env saved cli none c = (trR ++ [Ev.validate], Except.error er)
        ∧ ∀ e ∈ trR ++ [Ev.validate], isWrite e = false)
    ∧ (∀ env saved cli c p, Ev.validate ∉ (create env saved cli (some p) c).1)
    ∧ (∀ env saved cli c p, p.plugins = none →
        create env saved cli (some p) c = ([], Except.error CreateErr.typeErr)) := by
  refine ⟨?_, ?_, ?_, ?_⟩
  · intro env saved cli c pre e post hsplit hw
    rcases hr : promptAndResolvePreset saved c with ⟨trP, r⟩
    cases r with
    | error er =>
      have hfst : (create env saved cli none c).1 = trP := by
        simp only [create]
        rw [seqE_fst_error (by rw [hr] : (promptAndResolvePreset saved c).2 =
          Except.error er), hr]
      have he : e ∈ trP := by
        rw [← hfst, hsplit]
        simp
      have hnw := promptAndResolvePreset_no_writes
        (show e ∈ (promptAndResolvePreset saved c).1 by rw [hr]; exact he)
      rw [hw] at hnw
      exact Bool.noConfusion hnw
    | ok p =>
      have hfst : (create env saved cli none c).1 =
          trP ++ (createCore env saved cli c p).1 := by
        simp only [create]
        rw [seqE_fst_ok (by rw [hr] : (promptAndResolvePreset saved c).2 =
          Except.ok p), hr]
      have hval : Ev.validate ∈ trP := by
        have := promptAndResolvePreset_validate
          (show (promptAndResolvePreset saved c).2 = Except.ok p by rw [hr])
        rw [hr] at this
        exact this
      rw [hfst] at hsplit
      rcases List.append_eq_append_iff.mp hsplit.symm with ⟨a2, ha1, ha2⟩ | ⟨c2, hc1, hc2⟩
      · cases a2 with
        | nil =>
          have hpre : trP = pre := by simpa using ha1
          exact hpre ▸ hval
        | cons hd tl =>
          have h2 : e = hd ∧ post = tl ++ (createCore env saved cli c p).1 := by
            simpa using ha2
          have hin : e ∈ trP := by
            rw [ha1, h2.1]
            exact List.mem_append_right _ (List.mem_cons_self _ _)
          have hnw := promptAndResolvePreset_no_writes
            (show e ∈ (promptAndResolvePreset saved c).1 by rw [hr]; exact hin)
          rw [hw] at hnw
          exact Bool.noConfusion hnw
      · rw [hc1]
        exact List.mem_append_left _ hval
  · intro env saved cli c trR p er hstep hv
    have hpar := promptAndResolvePreset_eq_invalid hstep hv
    constructor
    · simp [create, seqE, hpar]
    · intro e he
      rcases List.mem_append.mp he with h | h
      · rcases resolvePresetM_events (hstep ▸ h : e ∈ (resolvePresetM saved.presets
          c.remote c.answersPreset false).1) with rfl | rfl | rfl <;> rfl
      · simp at h
        subst h
        rfl
  · intro env saved cli c p he
    simp only [create] at he
    rcases createCore_events he with h | h | h | ⟨lb, h⟩ | ⟨pm, h⟩ | h | ⟨hsg, h⟩
    · exact Ev.noConfusion h
    · simp at h
    · exact Ev.noConfusion h
    · exact Ev.noConfusion h
    · exact Ev.noConfusion h
    · exact Ev.noConfusion h
    · rcases h with h | h | h | h <;> simp at h
  · intro env saved cli c p hpl
    simp [create, createCore, hpl]

/-- C6 witness: an interview resolving to a saved preset without a plugins map
aborts with the validation failure and an unmodified target directory, and a
supplied preset without a plugins map aborts with the TypeError before any
write. -/
theorem claim6_witness :
    (create ⟨true, false, false, false⟩ ⟨none, [("web", { plugins := none })]⟩
        ⟨none, none⟩ none
        ⟨fun _ _ => Except.error "x", "web", fun _ => none,
          ⟨fun _ => none, fun _ => false, fun _ => "a"⟩, fun _ => ⟨[], []⟩⟩ =
      ([Ev.validate], Except.error CreateErr.invalidPreset)
    ∧ ∀ e ∈ ([] : List Ev) ++ [Ev.validate], isWrite e = false)
    ∧ (create ⟨true, false, false, false⟩ ⟨none, []⟩ ⟨none, none⟩
        (some { plugins := none })
        ⟨fun _ _ => Except.error "x", "web", fun _ => none,
          ⟨fun _ => none, fun _ => false, fun _ => "a"⟩, fun _ => ⟨[], []⟩⟩ =
      ([], Except.error CreateErr.typeErr)) :=
  ⟨claim6_validation_amended.2.1 ⟨true, false, false, false⟩
      ⟨none, [("web", { plugins := none })]⟩ ⟨none, none⟩
      ⟨fun _ _ => Except.error "x", "web", fun _ => none,
        ⟨fun _ => none, fun _ => false, fun _ => "a"⟩, fun _ => ⟨[], []⟩⟩
      [] (some { plugins := none }) CreateErr.invalidPreset rfl rfl,
    claim6_validation_amended.2.2.2 ⟨true, false, false, false⟩ ⟨none, []⟩
      ⟨none, none⟩
      ⟨fun _ _ => Except.error "x", "web", fun _ => none,
        ⟨fun _ => none, fun _ => false, fun _ => "a"⟩, fun _ => ⟨[], []⟩⟩
      { plugins := none } rfl⟩

/-! ## C8: git initialization gating (corrected)

The claim says git is initialized exactly when tooling is detected and the
caller did not explicitly disable it.  The source's `shouldInitGit` takes no
parameter (the `cliOptions` passed at the call site are dropped), so a caller
request to disable git is ignored: the counterexample is a run with git
detected and `git: false` in the options that still emits `git-init` and runs
the init process.  The detection half of the claim does hold: without tooling
no git-init event is emitted and no git process is spawned. -/

/-- C8 counterexample: with git tooling detected and the caller explicitly
disabling git (`git: false`), the run still emits the git-init creation event,
spawns git init, and commits. -/
theorem claim8_counterexample :
    (CliOptions.mk none (some false)).git = some false
    ∧ Ev.emitCreation "git-init" ∈ (create ⟨true, true, false, false⟩ ⟨none, []⟩
        (CliOptions.mk none (some false)) (some { plugins := some [] })
        ⟨fun _ _ => Except.error "x", "web", fun _ => none,
          ⟨fun _ => none, fun _ => false, fun _ => "a"⟩, fun _ => ⟨[], []⟩⟩).1
    ∧ Ev.procRun ProcStep.gitInit ∈ (create ⟨true, true, false, false⟩ ⟨none, []⟩
        (CliOptions.mk none (some false)) (some { plugins := some [] })
        ⟨fun _ _ => Except.error "x", "web", fun _ => none,
          ⟨fun _ => none, fun _ => false, fun _ => "a"⟩, fun _ => ⟨[], []⟩⟩).1
    ∧ Ev.procRun ProcStep.gitCommit ∈ (create ⟨true, true, false, false⟩ ⟨none, []⟩
        (CliOptions.mk none (some false)) (some { plugins := some [] })
        ⟨fun _ _ => Except.error "x", "web", fun _ => none,
          ⟨fun _ => none, fun _ => false, fun _ => "a"⟩, fun _ => ⟨[], []⟩⟩).1 := by
  decide

/-- C8 amended: git is initialized exactly when version-control tooling is
detected; the caller options cannot influence the decision (`shouldInitGit`
ignores them).  Without tooling no git-init creation event is emitted and no
git process (init, add, commit) is spawned; with tooling, any run that reaches
the workspace-initialization step emits the git-init event. -/
theorem claim8_git_gating :
    (∀ env cliA cliB, shouldInitGit env cliA = shouldInitGit env cliB)
    ∧ (∀ env saved cli presetArg c, env.hasGit = false →
        Ev.emitCreation "git-init" ∉ (create env saved cli presetArg c).1
        ∧ Ev.procRun ProcStep.gitInit ∉ (create env saved cli presetArg c).1
        ∧ Ev.procRun ProcStep.gitAdd ∉ (create env saved cli presetArg c).1
        ∧ Ev.procRun ProcStep.gitCommit ∉ (create env saved cli presetArg c).1)
    ∧ (∀ env saved cli c p rp, env.hasGit = true → p.plugins = some rp →
        Ev.emitCreation "git-init" ∈ (create env saved cli (some p) c).1) := by
  refine ⟨?_, ?_, ?_⟩
  · intro env cliA cliB
    simp [shouldInitGit]
  · intro env saved cli presetArg c hG
    have hsig : shouldInitGit env cli = false := by simp [shouldInitGit, hG]
    have main : ∀ e, (shouldInitGit env cli = true → False) →
        e ∈ (create env saved cli presetArg c).1 →
        e = Ev.emitCreation "git-init" ∨ e = Ev.procRun ProcStep.gitInit
        ∨ e = Ev.procRun ProcStep.gitAdd ∨ e = Ev.procRun ProcStep.gitCommit →
        False := by
      intro e hns he htgt
      rcases create_events he with h | ⟨p, h⟩
      · rcases htgt with rfl | rfl | rfl | rfl <;>
          rcases h with h | h | h | h <;> exact Ev.noConfusion h
      · rcases createCore_events h with h | h | h | ⟨lb, h⟩ | ⟨pm, h⟩ | h | ⟨hsg, h⟩
        · rcases htgt with rfl | rfl | rfl | rfl <;> exact Ev.noConfusion h
        · rcases htgt with rfl | rfl | rfl | rfl
          · simp at h
          all_goals exact Ev.noConfusion h
        · rcases htgt with rfl | rfl | rfl | rfl
          · exact Ev.noConfusion h
          all_goals simp at h
        · rcases htgt with rfl | rfl | rfl | rfl <;> exact Ev.noConfusion h
        · rcases htgt with rfl | rfl | rfl | rfl <;> exact Ev.noConfusion h
        · rcases htgt with rfl | rfl | rfl | rfl <;> exact Ev.noConfusion h
        · exact hns hsg
    have hns : shouldInitGit env cli = true → False := by
      rw [hsig]; exact Bool.noConfusion
    refine ⟨fun he => main _ hns he (by tauto), fun he => main _ hns he (by tauto),
      fun he => main _ hns he (by tauto), fun he => main _ hns he (by tauto)⟩
  · intro env saved cli c p rp hG hpl
    have hsig : shouldInitGit env cli = true := by simp [shouldInitGit, hG]
    simp only [create, createCore, hpl, hsig]
    refine mem_seqE_right rfl (mem_seqE_left ?_)
    cases hpr : c.proc ProcStep.gitInit <;> simp [gitInitStep, hpr]

/-- C8 witness: a host without git tooling emits no git-init event and spawns
no git process even when nothing else fails, and a host with git tooling
emits the git-init event. -/
theorem claim8_witness :
    (Ev.emitCreation "git-init" ∉ (create ⟨true, false, false, false⟩ ⟨none, []⟩
        ⟨none, none⟩ (some { plugins := some [] })
        ⟨fun _ _ => Except.error "x", "web", fun _ => none,
          ⟨fun _ => none, fun _ => false, fun _ => "a"⟩, fun _ => ⟨[], []⟩⟩).1
      ∧ Ev.procRun ProcStep.gitInit ∉ (create ⟨true, false, false, false⟩ ⟨none, []⟩
        ⟨none, none⟩ (some { plugins := some [] })
        ⟨fun _ _ => Except.error "x", "web", fun _ => none,
          ⟨fun _ => none, fun _ => false, fun _ => "a"⟩, fun _ => ⟨[], []⟩⟩).1
      ∧ Ev.procRun ProcStep.gitAdd ∉ (create ⟨true, false, false, false⟩ ⟨none, []⟩
        ⟨none, none⟩ (some { plugins := some [] })
        ⟨fun _ _ => Except.error "x", "web", fun _ => none,
          ⟨fun _ => none, fun _ => false, fun _ => "a"⟩, fun _ => ⟨[], []⟩⟩).1
      ∧ Ev.procRun ProcStep.gitCommit ∉ (create ⟨true, false, false, false⟩ ⟨none, []⟩
        ⟨none, none⟩ (some { plugins := some [] })
        ⟨fun _ _ => Except.error "x", "web", fun _ => none,
          ⟨fun _ => none, fun _ => false, fun _ => "a"⟩, fun _ => ⟨[], []⟩⟩).1)
    ∧ Ev.emitCreation "git-init" ∈ (create ⟨true, true, false, false⟩ ⟨none, []⟩
        ⟨none, none⟩ (some { plugins := some [] })
        ⟨fun _ _ => Except.error "x", "web", fun _ => none,
          ⟨fun _ => none, fun _ => false, fun _ => "a"⟩, fun _ => ⟨[], []⟩⟩).1 :=
  ⟨claim8_git_gating.2.1 ⟨true, false, false, false⟩ ⟨none, []⟩ ⟨none, none⟩
      (some { plugins := some [] })
      ⟨fun _ _ => Except.error "x", "web", fun _ => none,
        ⟨fun _ => none, fun _ => false, fun _ => "a"⟩, fun _ => ⟨[], []⟩⟩ rfl,
    claim8_git_gating.2.2 ⟨true, true, false, false⟩ ⟨none, []⟩ ⟨none, none⟩
      ⟨fun _ _ => Except.error "x", "web", fun _ => none,
        ⟨fun _ => none, fun _ => false, fun _ => "a"⟩, fun _ => ⟨[], []⟩⟩
      { plugins := some [] } [] rfl rfl⟩

/-! ## Heap lemmas -/

theorem heapGet_some_lt {H : Heap} {a : Nat} {nd : HNode} (h : heapGet H a = some nd) :
    a < H.length := by
  induction H generalizing a with
  | nil => simp [heapGet] at h
  | cons x rest ih =>
    cases a with
    | zero => simp
    | succ a2 =>
      have := ih (a := a2) h
      simp only [List.length_cons]
      omega

theorem heapGet_none_of_ge {H : Heap} {a : Nat} (h : H.length ≤ a) :
    heapGet H a = none := by
  induction H generalizing a with
  | nil => rfl
  | cons x rest ih =>
    cases a with
    | zero => simp at h
    | succ a2 =>
      apply ih
      simp at h
      omega

theorem heapGet_append_lt {H ext : Heap} {a : Nat} (h : a < H.length) :
    heapGet (H ++ ext) a = heapGet H a := by
  induction H generalizing a with
  | nil => simp at h
  | cons x rest ih =>
    cases a with
    | zero => rfl
    | succ a2 =>
      simp only [List.cons_append, heapGet]
      apply ih
      simp at h
      omega

theorem heapGet_snoc_self (H : Heap) (nd : HNode) :
    heapGet (H ++ [nd]) H.length = some nd := by
  induction H with
  | nil => rfl
  | cons x rest ih =>
    simp only [List.cons_append, List.length_cons, heapGet]
    exact ih

theorem heapGet_snoc_ge {H : Heap} {nd nd2 : HNode} {i : Nat} (hge : H.length ≤ i)
    (h : heapGet (H ++ [nd]) i = some nd2) : i = H.length ∧ nd2 = nd := by
  rcases Nat.eq_or_lt_of_le hge with heq | hlt
  · rw [← heq, heapGet_snoc_self] at h
    exact ⟨heq.symm, (Option.some.inj h).symm⟩
  · have hlen : (H ++ [nd]).length ≤ i := by simp; omega
    rw [heapGet_none_of_ge hlen] at h
    exact Option.noConfusion h

theorem heapGet_mem {H : Heap} {a : Nat} {nd : HNode} (h : heapGet H a = some nd) :
    nd ∈ H := by
  induction H generalizing a with
  | nil => simp [heapGet] at h
  | cons x rest ih =>
    cases a with
    | zero =>
      simp [heapGet] at h
      rw [← h]
      exact List.mem_cons_self _ _
    | succ a2 => exact List.mem_cons_of_mem _ (ih (a := a2) h)

theorem heapSet_get_ne {H : Heap} {a b : Nat} {nd : HNode} (h : a ≠ b) :
    heapGet (heapSet H b nd) a = heapGet H a := by
  induction H generalizing a b with
  | nil => rfl
  | cons x rest ih =>
    cases b with
    | zero =>
      cases a with
      | zero => exact absurd rfl h
      | succ a2 => rfl
    | succ b2 =>
      cases a with
      | zero => rfl
      | succ a2 => exact ih (fun he => h (by rw [he]))

theorem closedHeap_iff {H : Heap} :
    closedHeap H = true ↔ ∀ nd ∈ H, ∀ b ∈ nodeAddrs nd, b < H.length := by
  simp [closedHeap, List.all_eq_true]

theorem closed_node_addrs {H : Heap} {a : Nat} {nd : HNode}
    (hcl : closedHeap H = true) (h : heapGet H a = some nd) :
    ∀ b ∈ nodeAddrs nd, b < H.length :=
  closedHeap_iff.mp hcl nd (heapGet_mem h)

theorem closedHeap_snoc {H : Heap} {nd : HNode} (h1 : closedHeap H = true)
    (h2 : ∀ b ∈ nodeAddrs nd, b < H.length + 1) :
    closedHeap (H ++ [nd]) = true := by
  rw [closedHeap_iff]
  intro x hx b hb
  simp only [List.length_append, List.length_cons, List.length_nil]
  rcases List.mem_append.mp hx with h | h
  · have := closedHeap_iff.mp h1 x h b hb
    omega
  · simp at h
    subst h
    have := h2 b hb
    omega

theorem freshFrom_self (H : Heap) : freshFrom H.length H := by
  intro i nd hge hget
  rw [heapGet_none_of_ge hge] at hget
  exact Option.noConfusion hget

theorem freshFrom_snoc {base : Nat} {H : Heap} {nd : HNode}
    (h1 : freshFrom base H) (h2 : ∀ b ∈ nodeAddrs nd, base ≤ b) :
    freshFrom base (H ++ [nd]) := by
  intro i x hge hget b hb
  by_cases hi : i < H.length
  · rw [heapGet_append_lt hi] at hget
    exact h1 i x hge hget b hb
  · obtain ⟨heq, rfl⟩ := heapGet_snoc_ge (Nat.le_of_not_lt hi) hget
    exact h2 b hb

theorem freshFrom_extend {b1 : Nat} {H2 H3 ext : Heap}
    (h1 : freshFrom b1 H2) (he : H3 = H2 ++ ext) (h2 : freshFrom H2.length H3)
    (hle : b1 ≤ H2.length) : freshFrom b1 H3 := by
  intro i nd hge hget b hb
  by_cases hi : i < H2.length
  · have hget2 : heapGet H2 i = some nd := by
      rw [he, heapGet_append_lt hi] at hget
      exact hget
    exact h1 i nd hge hget2 b hb
  · have := h2 i nd (Nat.le_of_not_lt hi) hget b hb
    omega

theorem readFields_congr {rd1 rd2 : Nat → Option PVal} {fs : List (String × Nat)}
    (h : ∀ kv ∈ fs, rd2 kv.2 = rd1 kv.2) : readFields rd2 fs = readFields rd1 fs := by
  induction fs with
  | nil => rfl
  | cons kv rest ih =>
    obtain ⟨k, a⟩ := kv
    simp only [readFields]
    rw [h (k, a) (List.mem_cons_self _ _),
      ih (fun kv2 h2 => h kv2 (List.mem_cons_of_mem _ h2))]

theorem readout_agree {H H2 : Heap} (hcl : closedHeap H = true)
    (hag : ∀ i, i < H.length → heapGet H2 i = heapGet H i) :
    ∀ f a, a < H.length → readout f H2 a = readout f H a := by
  intro f
  induction f with
  | zero => intro a ha; rfl
  | succ f2 ih =>
    intro a ha
    have hga : heapGet H2 a = heapGet H a := hag a ha
    simp only [readout, hga]
    cases hnd : heapGet H a with
    | none => rfl
    | some nd =>
      cases nd with
      | prim s => rfl
      | obj fs =>
        have hfield : ∀ kv ∈ fs, kv.2 < H.length := by
          intro kv hkv
          exact closed_node_addrs hcl hnd kv.2 (List.mem_map_of_mem _ hkv)
        have hcongr : readFields (fun b => readout f2 H2 b) fs =
            readFields (fun b => readout f2 H b) fs :=
          readFields_congr (fun kv hkv => ih kv.2 (hfield kv hkv))
        simp only [hcongr]

theorem readout_append {H ext : Heap} {a : Nat} (hcl : closedHeap H = true)
    (ha : a < H.length) : ∀ f, readout f (H ++ ext) a = readout f H a :=
  fun f => readout_agree hcl (fun i hi => heapGet_append_lt hi) f a ha

theorem readout_set_outside {H ext : Heap} {a b : Nat} {nd : HNode}
    (hcl : closedHeap H = true) (ha : a < H.length) (hb : H.length ≤ b) :
    ∀ f, readout f (heapSet (H ++ ext) b nd) a = readout f H a :=
  fun f => readout_agree hcl
    (fun i hi => by
      rw [heapSet_get_ne (Nat.ne_of_lt (lt_of_lt_of_le hi hb)), heapGet_append_lt hi])
    f a ha

/-! ## Clone specification -/

theorem cloneFields_spec
    (cl : Heap → Nat → Option (Heap × Nat))
    (hspec : ∀ H a H2 r, closedHeap H = true → cl H a = some (H2, r) →
      (∃ ext, H2 = H ++ ext) ∧ closedHeap H2 = true ∧ H.length ≤ r ∧ r < H2.length
      ∧ freshFrom H.length H2 ∧ (∀ n, readout n H2 r = readout n H a)) :
    ∀ fs H H2 ps, closedHeap H = true → (∀ kv ∈ fs, kv.2 < H.length) →
      cloneFields cl H fs = some (H2, ps) →
      (∃ ext, H2 = H ++ ext) ∧ closedHeap H2 = true
      ∧ (∀ kv ∈ ps, H.length ≤ kv.2 ∧ kv.2 < H2.length)
      ∧ freshFrom H.length H2
      ∧ (∀ n, readFields (fun b => readout n H2 b) ps =
          readFields (fun b => readout n H b) fs) := by
  intro fs
  induction fs with
  | nil =>
    intro H H2 ps hcl hf hcall
    simp only [cloneFields, Option.some.injEq, Prod.mk.injEq] at hcall
    obtain ⟨rfl, rfl⟩ := hcall
    exact ⟨⟨[], by simp⟩, hcl, by simp, freshFrom_self H, fun n => rfl⟩
  | cons kv rest ih =>
    obtain ⟨k, a⟩ := kv
    intro H H2 ps hcl hf hcall
    simp only [cloneFields] at hcall
    split at hcall
    case _ H2a a2 hc1 =>
      split at hcall
      case _ H3 ps2 hc2 =>
        simp only [Option.some.injEq, Prod.mk.injEq] at hcall
        obtain ⟨rfl, rfl⟩ := hcall
        obtain ⟨⟨ext1, hext1⟩, hclA, haleA, haltA, hfreshA, hreadA⟩ :=
          hspec H a H2a a2 hcl hc1
        have hlenA : H.length ≤ H2a.length := by rw [hext1]; simp
        obtain ⟨⟨ext2, hext2⟩, hclB, hbounds, hfreshB, hreadB⟩ :=
          ih H2a H3 ps2 hclA
            (fun kv2 hkv2 =>
              lt_of_lt_of_le (hf kv2 (List.mem_cons_of_mem _ hkv2)) hlenA) hc2
        have hlenB : H2a.length ≤ H3.length := by rw [hext2]; simp
        refine ⟨⟨ext1 ++ ext2, by rw [hext2, hext1, List.append_assoc]⟩, hclB, ?_, ?_, ?_⟩
        · intro kv2 hkv2
          rcases List.mem_cons.mp hkv2 with rfl | hkv2
          · exact ⟨haleA, lt_of_lt_of_le haltA hlenB⟩
          · obtain ⟨hb1, hb2⟩ := hbounds kv2 hkv2
            exact ⟨le_trans hlenA hb1, hb2⟩
        · exact freshFrom_extend hfreshA hext2 hfreshB hlenA
        · intro n
          have h1 : readout n H3 a2 = readout n H a := by
            rw [hext2, readout_append hclA haltA n]
            exact hreadA n
          have h2 : readFields (fun b => readout n H2a b) rest =
              readFields (fun b => readout n H b) rest :=
            readFields_congr (fun kv2 hkv2 => by
              rw [hext1]
              exact readout_append hcl (hf kv2 (List.mem_cons_of_mem _ hkv2)) n)
          simp only [readFields]
          simp only [h1, hreadB n, h2]
      case _ hc2 => exact Option.noConfusion hcall
    case _ hc1 => exact Option.noConfusion hcall

theorem cloneDeep_spec :
    ∀ f H a H2 r, closedHeap H = true → cloneDeep f H a = some (H2, r) →
      (∃ ext, H2 = H ++ ext) ∧ closedHeap H2 = true ∧ H.length ≤ r ∧ r < H2.length
      ∧ freshFrom H.length H2 ∧ (∀ n, readout n H2 r = readout n H a) := by
  intro f
  induction f with
  | zero => intro H a H2 r hcl hcall; exact Option.noConfusion hcall
  | succ f2 ih =>
    intro H a H2 r hcl hcall
    simp only [cloneDeep] at hcall
    split at hcall
    case _ s hnd =>
      simp only [Option.some.injEq, Prod.mk.injEq] at hcall
      obtain ⟨rfl, rfl⟩ := hcall
      refine ⟨⟨[HNode.prim s], rfl⟩, ?_, le_refl _, by simp, ?_, ?_⟩
      · exact closedHeap_snoc hcl (by simp [nodeAddrs])
      · exact freshFrom_snoc (freshFrom_self H) (by simp [nodeAddrs])
      · intro n
        cases n with
        | zero => rfl
        | succ n2 => simp only [readout, hnd, heapGet_snoc_self]
    case _ fs hnd =>
      split at hcall
      case _ H2m ps hcf =>
        simp only [Option.some.injEq, Prod.mk.injEq] at hcall
        obtain ⟨rfl, rfl⟩ := hcall
        have hfaddr : ∀ kv ∈ fs, kv.2 < H.length := fun kv hkv =>
          closed_node_addrs hcl hnd kv.2 (List.mem_map_of_mem _ hkv)
        obtain ⟨⟨ext, hext⟩, hclm, hbounds, hfresh, hread⟩ :=
          cloneFields_spec _ ih fs H H2m ps hcl hfaddr hcf
        have hlenm : H.length ≤ H2m.length := by rw [hext]; simp
        refine ⟨⟨ext ++ [HNode.obj ps], by rw [hext, List.append_assoc]⟩, ?_, hlenm,
          by simp, ?_, ?_⟩
        · refine closedHeap_snoc hclm ?_
          simp only [nodeAddrs, List.mem_map]
          rintro b ⟨kv2, hkv2, rfl⟩
          have := (hbounds kv2 hkv2).2
          omega
        · refine freshFrom_snoc hfresh ?_
          simp only [nodeAddrs, List.mem_map]
          rintro b ⟨kv2, hkv2, rfl⟩
          exact (hbounds kv2 hkv2).1
        · intro n
          cases n with
          | zero => rfl
          | succ n2 =>
            simp only [readout, hnd, heapGet_snoc_self]
            have hcongr : readFields
                (fun b => readout n2 (H2m ++ [HNode.obj ps]) b) ps =
                readFields (fun b => readout n2 H2m b) ps :=
              readFields_congr (fun kv2 hkv2 =>
                readout_append hclm (hbounds kv2 hkv2).2 n2)
            simp only [hcongr, hread n2]
      case _ hcf => exact Option.noConfusion hcall
    case _ hnd => exact Option.noConfusion hcall

/-! ## C9: shared saved-preset reference, defensive deep copy -/

/-- C9: resolving a saved preset name returns a shared reference into the
store heap; after the defensive `cloneDeep` of `create`, the working copy
reads out structurally equal to the stored preset, lives entirely in the
fresh region at or above the old heap end (`freshFrom`), and any in-place
mutation at a fresh address — every address a plugin can reach from the
working copy — leaves the readout of the stored preset unchanged, so
resolving the same name again yields a structurally equal preset. -/
theorem claim9_shared_store_and_deep_copy :
    ∀ (H : Heap) (saved : List (String × Nat)) (name : String) (a f : Nat)
      (H2 : Heap) (r : Nat),
      resolvePresetH saved name = some a →
      closedHeap H = true →
      cloneDeep f H a = some (H2, r) →
      ((∀ n, readout n H2 r = readout n H a)
      ∧ H.length ≤ r
      ∧ freshFrom H.length H2
      ∧ (∀ b nd n, H.length ≤ b → readout n (heapSet H2 b nd) a = readout n H a)
      ∧ (∀ b nd n, H.length ≤ b →
          (resolvePresetH saved name).bind (fun a2 => readout n (heapSet H2 b nd) a2) =
          (resolvePresetH saved name).bind (fun a2 => readout n H a2))) := by
  intro H saved name a f H2 r hres hcl hclone
  obtain ⟨⟨ext, hext⟩, hcl2, hler, hltr, hfresh, hread⟩ :=
    cloneDeep_spec f H a H2 r hcl hclone
  have ha : a < H.length := by
    cases f with
    | zero => exact Option.noConfusion hclone
    | succ f2 =>
      simp only [cloneDeep] at hclone
      split at hclone
      case _ s hnd => exact heapGet_some_lt hnd
      case _ fs hnd => exact heapGet_some_lt hnd
      case _ hnd => exact Option.noConfusion hclone
  have hiso : ∀ b nd n, H.length ≤ b →
      readout n (heapSet H2 b nd) a = readout n H a := by
    intro b nd n hb
    rw [hext]
    exact readout_set_outside hcl ha hb n
  refine ⟨hread, hler, hfresh, hiso, ?_⟩
  intro b nd n hb
  rw [hres]
  show readout n (heapSet H2 b nd) a = readout n H a
  exact hiso b nd n hb

/-- C9 witness: a store holding the preset web at address 1 of a two-node
heap; cloning it appends the two fresh nodes 2 and 3, mutating the fresh
address 2 leaves the stored preset readout unchanged, and the clone root 3
reads out equal to the original. -/
theorem claim9_witness :
    readout 5 (heapSet [HNode.prim "web", HNode.obj [("plugins", 0)],
        HNode.prim "web", HNode.obj [("plugins", 2)]] 2 (HNode.prim "mutated")) 1 =
      readout 5 [HNode.prim "web", HNode.obj [("plugins", 0)]] 1
    ∧ readout 5 [HNode.prim "web", HNode.obj [("plugins", 0)],
        HNode.prim "web", HNode.obj [("plugins", 2)]] 3 =
      readout 5 [HNode.prim "web", HNode.obj [("plugins", 0)]] 1 := by
  have h := claim9_shared_store_and_deep_copy
    [HNode.prim "web", HNode.obj [("plugins", 0)]] [("web", 1)] "web" 1 3 _ _
    rfl (by decide) rfl
  exact ⟨h.2.2.2.1 2 (HNode.prim "mutated") 5 (by decide), h.1 5⟩

end Workflow
